import Mathlib

-- Verification development for python-w-multiline-comments (src/main.py).
--
-- Python strings are embedded as lists of characters (PyStr); the string
-- primitives the program uses (startswith, endswith, strip, lower, slicing,
-- split, substring containment) are defined below with Python's semantics.
-- The source file consumed by the program is modelled as the list of strings
-- returned by successive readline() calls: every line carries its trailing
-- newline character, except possibly the final line of the file; the empty
-- list plays the role of end-of-file (readline() returning "").

abbrev PyStr := List Char

def pystr (s : String) : PyStr := s.data

-- Python s.startswith(p).
def listStarts : PyStr → PyStr → Bool
  | _, [] => true
  | [], _ :: _ => false
  | c :: s, d :: p => c == d && listStarts s p

-- Python s.endswith(p).
def listEnds (s p : PyStr) : Bool := listStarts s.reverse p.reverse

-- Python `p in s` (substring containment, including the empty pattern).
def containsSeq : PyStr → PyStr → Bool
  | s, p =>
    listStarts s p ||
      (match s with
       | [] => false
       | _ :: s' => containsSeq s' p)

-- Python s[:len(s)-n] as used by the slices line[:-4] and line[3:-4].
def pyDropRight (s : PyStr) (n : Nat) : PyStr := s.take (s.length - n)

-- Python's str.strip() whitespace set (ASCII part).
def isPySpace (c : Char) : Bool :=
  c == ' ' || c == '\t' || c == '\n' || c == '\r' || c == '\x0b' || c == '\x0c'

-- Python s.strip().
def pyStrip (s : PyStr) : PyStr :=
  ((s.dropWhile isPySpace).reverse.dropWhile isPySpace).reverse

-- Python s.lower() (ASCII part).
def pyToLower (c : Char) : Char :=
  if 'A' ≤ c ∧ c ≤ 'Z' then Char.ofNat (c.toNat + 32) else c

def pyLower (s : PyStr) : PyStr := s.map pyToLower

-- Python s.split("\n"): "a\nb\n" ↦ ["a", "b", ""], "" ↦ [""].
def splitNl : PyStr → List PyStr
  | [] => [[]]
  | c :: s =>
    if c == '\n' then [] :: splitNl s
    else
      match splitNl s with
      | h :: t => (c :: h) :: t
      | [] => [[c]]

-- ===================== Segment kinds (main.py lines 95-97) =====================

inductive SnippetType where
  | code : SnippetType
  | comment : SnippetType
deriving DecidableEq, Repr

-- ===================== Delimiters (main.py lines 99-100) =====================

def START_COMMENT : PyStr := pystr "\"\"\""

def END_COMMENT : PyStr := START_COMMENT ++ pystr "\n"

-- A line that both opens and closes a documentation block on the same line
-- (main.py line 112: `len(line) > 4 and line.endswith(END_COMMENT)`): the
-- text is line[3:-4] with a newline appended.
def inlineCommentText (line : PyStr) : Option PyStr :=
  if 4 < line.length ∧ listEnds line END_COMMENT = true then
    some (pyDropRight (line.drop 3) 4 ++ pystr "\n")
  else none

-- Initial accumulated text of a multi-line documentation block
-- (main.py line 116): a bare opening delimiter line contributes nothing,
-- any other opening line contributes line[3:].
def commentInit (line : PyStr) : PyStr :=
  if line = END_COMMENT then [] else line.drop 3

-- main.py line 138: `prev_line = code.split("\n")[-2].strip()`.
-- Python's negative index [-2] is parts[len(parts) - 2]; it would raise
-- IndexError when the split has a single element, which cannot happen for
-- code accumulated from a readline() stream that still has lines left
-- (every accumulated line then ends with a newline, so the split has at
-- least two elements).
def prevLine (code : PyStr) : PyStr :=
  let parts := splitNl code
  pyStrip (parts.getD (parts.length - 2) [])

-- main.py line 139: the docstring disambiguation test on the previous line.
def isDefHeader (s : PyStr) : Bool :=
  listEnds s (pystr ":") && (listStarts s (pystr "def ") || listStarts s (pystr "class "))

-- The segmenter split_code_every_multiline_comment (main.py lines 102-147)
-- is a nest of line-reading loops; it is embedded as a step function on an
-- explicit mode state:
--   top          : the outer `while line:` loop, about to classify a line
--   inComment acc: the comment-accumulating loop (lines 118-125)
--   inCode acc   : the code-accumulating loop (lines 131-146)
--   inDoc acc    : the docstring-skipping loop (lines 141-144); acc is the
--                  code accumulated so far, which that loop leaves untouched
-- The result is Option-valued: none models the one input family on which the
-- Python loops forever (a docstring whose closing delimiter line never
-- arrives: readline() then returns "" forever inside lines 141-144).
inductive SegMode where
  | top : SegMode
  | inComment : PyStr → SegMode
  | inCode : PyStr → SegMode
  | inDoc : PyStr → SegMode
deriving DecidableEq, Repr

def segAux : SegMode → List PyStr → Option (List (PyStr × SnippetType))
  | .top, [] => some []
  | .inComment acc, [] => some [(acc, .comment)]
  | .inCode acc, [] => some [(acc, .code)]
  | .inDoc _, [] => none
  | .top, l :: ls =>
    if listStarts l START_COMMENT then
      match inlineCommentText l with
      | some t => (segAux .top ls).map (fun tl => (t, .comment) :: tl)
      | none => segAux (.inComment (commentInit l)) ls
    else segAux (.inCode l) ls
  | .inComment acc, l :: ls =>
    if listEnds l END_COMMENT then
      (segAux .top ls).map (fun tl =>
        ((if l = END_COMMENT then acc else acc ++ pyDropRight l 4 ++ pystr "\n"),
          .comment) :: tl)
    else segAux (.inComment (acc ++ l)) ls
  | .inCode acc, l :: ls =>
    if listStarts l START_COMMENT then
      if isDefHeader (prevLine acc) then
        -- docstring: consumed and discarded, the same code segment continues
        if listEnds l END_COMMENT then segAux (.inCode acc) ls
        else segAux (.inDoc acc) ls
      else
        -- the delimiter line closes the code segment and is re-examined by
        -- the outer loop as the start of the next documentation segment
        Option.map (fun tl => (acc, .code) :: tl)
          (match inlineCommentText l with
           | some t => (segAux .top ls).map (fun tl => (t, .comment) :: tl)
           | none => segAux (.inComment (commentInit l)) ls)
    else segAux (.inCode (acc ++ l)) ls
  | .inDoc acc, l :: ls =>
    if listEnds l END_COMMENT then segAux (.inCode acc) ls
    else segAux (.inDoc acc) ls

def split_code_every_multiline_comment (lines : List PyStr) :
    Option (List (PyStr × SnippetType)) :=
  segAux .top lines

-- ===================== Snippet gate (main.py lines 149-152) =====================

-- `is_code_to_execute(snippet)`: the snippet is stripped, then tested against
-- the two accepted spellings of the opt-out marker.
def is_code_to_execute (snippet : PyStr) : Bool :=
  !(listStarts (pyStrip snippet) (pystr "# pwmc:no_exec") ||
    listStarts (pyStrip snippet) (pystr "#pwmc:no_exec"))

-- ===================== Fast-forward handler (main.py lines 58-75) =====================

-- The CLI's parse_fast_forward yields either an int or a lowercased string;
-- the handler stores it in self.fast_forward.  Counter starts at 0, the
-- passed flag at False (lines 59-62).
structure FastForwardHandler where
  fast_forward : Sum Int PyStr
  snippet_counter : Int
  snippet_to_fast_forward_passed : Bool
deriving DecidableEq, Repr

def FastForwardHandler.init (ff : Sum Int PyStr) : FastForwardHandler :=
  ⟨ff, 0, false⟩

-- main.py lines 64-65.
def increment_snippet_counter (h : FastForwardHandler) : FastForwardHandler :=
  { h with snippet_counter := h.snippet_counter + 1 }

-- main.py lines 67-70.  The method both mutates the handler and returns the
-- (updated) passed flag; it is embedded as returning the pair.
-- `not comment` is true for None and for the empty string.
def is_snippet_to_fast_forward_passed (h : FastForwardHandler) (comment : Option PyStr) :
    Bool × FastForwardHandler :=
  match comment with
  | none => (h.snippet_to_fast_forward_passed, h)
  | some c =>
    if c = [] ∨ h.snippet_to_fast_forward_passed = true then
      (h.snippet_to_fast_forward_passed, h)
    else
      match h.fast_forward with
      | .inr s =>
        if containsSeq (pyLower c) s then
          (true, { h with snippet_to_fast_forward_passed := true })
        else (false, h)
      | .inl _ => (h.snippet_to_fast_forward_passed, h)

-- main.py lines 72-75.
def is_fast_forwarding (h : FastForwardHandler) : Bool :=
  match h.fast_forward with
  | .inl n => decide (h.snippet_counter ≤ n)
  | .inr _ => !h.snippet_to_fast_forward_passed

-- main.py line 158: `FastForwardHandler(fast_forward) if fast_forward else None`.
-- Python truthiness: the int 0 and the empty string are falsy, so they yield
-- no handler at all.
def mkHandler (fast_forward : Option (Sum Int PyStr)) : Option FastForwardHandler :=
  match fast_forward with
  | none => none
  | some (.inl n) => if n = 0 then none else some (.init (.inl n))
  | some (.inr s) => if s = [] then none else some (.init (.inr s))

-- ===================== Driver (main.py lines 154-177) =====================

-- What the driver does with one segment before the advance/blocking logic:
-- a Documentation segment is rendered; a Code segment is either skipped by
-- the snippet gate (the "Code not executed" notice), evaluated successfully,
-- or evaluated with a caught exception whose message is reported.
-- The suppress flag records the suppress_plots argument passed to
-- PersistentPythonConsole.execute (main.py lines 166-168).
inductive Act where
  | rendered : PyStr → Act
  | notExecuted : Act
  | execOk : Bool → Act
  | execErr : Bool → PyStr → Act
deriving DecidableEq, Repr

-- One loop iteration's observable record: what was done with the segment,
-- the line read at the blocking prompt (if the driver blocked), and whether
-- the blank separator line was printed.
structure SegStep where
  act : Act
  prompted : Option PyStr
  sep : Bool
deriving DecidableEq, Repr

def defaultStep : SegStep := ⟨.rendered [], none, false⟩

-- How the run ends: the segment stream was exhausted, the quit keystroke was
-- received (main.py line 176, a clean break), or input() hit end-of-stdin
-- (in Python an uncaught EOFError).
inductive Outcome where
  | finished : Outcome
  | quit : Outcome
  | inputExhausted : Outcome
deriving DecidableEq, Repr

structure RunResult (σ : Type) where
  steps : List SegStep
  handler : Option FastForwardHandler
  locals : σ
  inputsLeft : List PyStr
  outcome : Outcome
deriving DecidableEq, Repr

def consStep {σ : Type} (s : SegStep) (r : RunResult σ) : RunResult σ :=
  { r with steps := s :: r.steps }

-- The suppress_plots argument of main.py lines 167-168.
def suppFlag (h : Option FastForwardHandler) (interactive : Bool) : Bool :=
  match h with
  | some hh => is_fast_forwarding hh
  | none => !interactive

-- Lines 160-169: process one segment.  The evaluation backend (Python's
-- exec against the persistent namespace, main.py lines 53-56) is the
-- parameter ev: given the code text, the suppress_plots flag and the
-- namespace it returns the namespace it left behind and, when the evaluated
-- code raised, the exception message caught at line 169.
def stepSeg {σ : Type} (ev : PyStr → Bool → σ → σ × Option PyStr)
    (interactive : Bool) (seg : PyStr × SnippetType)
    (h : Option FastForwardHandler) (st : σ) :
    Act × Option FastForwardHandler × σ :=
  match seg with
  | (text, .comment) =>
    ( .rendered text,
      if interactive then
        h.map (fun hh => (is_snippet_to_fast_forward_passed hh (some text)).2)
      else h,
      st )
  | (text, .code) =>
    if is_code_to_execute text = false then (.notExecuted, h, st)
    else
      match ev text (suppFlag h interactive) st with
      | (st', none) => (.execOk (suppFlag h interactive), h, st')
      | (st', some m) => (.execErr (suppFlag h interactive) m, h, st')

-- Line 170: `if fast_forward_handler and fast_forward_handler.is_fast_forwarding():
--            fast_forward_handler.increment_snippet_counter()`.
def incIfFF (h : Option FastForwardHandler) : Option FastForwardHandler :=
  h.map (fun hh => if is_fast_forwarding hh then increment_snippet_counter hh else hh)

-- The guard of lines 170 and 172.
def ffNow (h : Option FastForwardHandler) : Bool :=
  match h with
  | some hh => is_fast_forwarding hh
  | none => false

-- Lines 159-177: the driver loop of python_w_multiline_comments, one
-- iteration per segment.  interactive is `not args.all`; the user's stdin is
-- the list ins (input() reads its head; an empty list means end-of-stdin).
def runDriver {σ : Type} (ev : PyStr → Bool → σ → σ × Option PyStr)
    (interactive : Bool) :
    List (PyStr × SnippetType) → Option FastForwardHandler → σ → List PyStr →
    RunResult σ
  | [], h, st, ins => ⟨[], h, st, ins, .finished⟩
  | seg :: rest, h, st, ins =>
    let s := stepSeg ev interactive seg h st
    let h2 := incIfFF s.2.1
    if interactive then
      if ffNow h2 then
        consStep ⟨s.1, none, true⟩ (runDriver ev interactive rest h2 s.2.2 ins)
      else
        match ins with
        | [] => ⟨[⟨s.1, none, false⟩], h2, s.2.2, [], .inputExhausted⟩
        | v :: ins' =>
          if v = pystr "q" then ⟨[⟨s.1, some v, false⟩], h2, s.2.2, ins', .quit⟩
          else consStep ⟨s.1, some v, false⟩ (runDriver ev interactive rest h2 s.2.2 ins')
    else consStep ⟨s.1, none, true⟩ (runDriver ev interactive rest h2 s.2.2 ins)

-- The suppress flag recorded in an Act, when the segment was evaluated.
def actSuppFlag : Act → Option Bool
  | .execOk b => some b
  | .execErr b _ => some b
  | _ => none

-- The operations of the FastForwardHandler class, for stating that no
-- sequence of them reverts the passed flag (is_fast_forwarding reads the
-- state without mutating it).
inductive FFOp where
  | incOp : FFOp
  | seenOp : Option PyStr → FFOp
  | queryOp : FFOp

def applyOp (h : FastForwardHandler) : FFOp → FastForwardHandler
  | .incOp => increment_snippet_counter h
  | .seenOp c => (is_snippet_to_fast_forward_passed h c).2
  | .queryOp => h

def applyOps : FastForwardHandler → List FFOp → FastForwardHandler
  | h, [] => h
  | h, op :: ops => applyOps (applyOp h op) ops

-- ===================== Segmenter lemmas =====================

-- A run started in the comment-accumulating loop emits a Documentation
-- segment first.
theorem segAux_inComment_head :
    ∀ (ls : List PyStr) (acc : PyStr) (out : List (PyStr × SnippetType)),
      segAux (.inComment acc) ls = some out →
      ∃ t tl, out = (t, SnippetType.comment) :: tl := by
  intro ls
  induction ls with
  | nil =>
    intro acc out h
    simp only [segAux, Option.some.injEq] at h
    exact ⟨acc, [], h.symm⟩
  | cons l ls ih =>
    intro acc out h
    simp only [segAux] at h
    by_cases he : listEnds l END_COMMENT = true
    · simp only [he, if_true] at h
      rcases Option.map_eq_some'.1 h with ⟨tl, _, htl⟩
      exact ⟨_, tl, htl.symm⟩
    · simp only [he, if_false] at h
      exact ih _ _ h

-- A run started in the code-accumulating loop (or in the docstring-skipping
-- loop inside it) emits a Code segment first.
theorem segAux_inCode_inDoc_head :
    ∀ (ls : List PyStr),
      (∀ (acc : PyStr) (out : List (PyStr × SnippetType)),
        segAux (.inCode acc) ls = some out →
        ∃ t tl, out = (t, SnippetType.code) :: tl) ∧
      (∀ (acc : PyStr) (out : List (PyStr × SnippetType)),
        segAux (.inDoc acc) ls = some out →
        ∃ t tl, out = (t, SnippetType.code) :: tl) := by
  intro ls
  induction ls with
  | nil =>
    constructor
    · intro acc out h
      simp only [segAux, Option.some.injEq] at h
      exact ⟨acc, [], h.symm⟩
    · intro acc out h
      simp [segAux] at h
  | cons l ls ih =>
    constructor
    · intro acc out h
      simp only [segAux] at h
      by_cases hs : listStarts l START_COMMENT = true
      · simp only [hs, if_true] at h
        by_cases hd : isDefHeader (prevLine acc) = true
        · simp only [hd, if_true] at h
          by_cases he : listEnds l END_COMMENT = true
          · simp only [he, if_true] at h
            exact ih.1 _ _ h
          · simp only [he, if_false] at h
            exact ih.2 _ _ h
        · simp only [hd, if_false] at h
          rcases Option.map_eq_some'.1 h with ⟨tl, _, htl⟩
          exact ⟨acc, tl, htl.symm⟩
      · simp only [hs, if_false] at h
        exact ih.1 _ _ h
    · intro acc out h
      simp only [segAux] at h
      by_cases he : listEnds l END_COMMENT = true
      · simp only [he, if_true] at h
        exact ih.1 _ _ h
      · simp only [he, if_false] at h
        exact ih.2 _ _ h

-- The docstring-skipping loop consumes lines up to and including the first
-- line that ends with the closing delimiter, leaving the accumulated code
-- untouched.
theorem segAux_inDoc_skip :
    ∀ (mid : List PyStr) (acc e : PyStr) (rest : List PyStr),
      (∀ x ∈ mid, listEnds x END_COMMENT = false) →
      listEnds e END_COMMENT = true →
      segAux (.inDoc acc) (mid ++ e :: rest) = segAux (.inCode acc) rest := by
  intro mid
  induction mid with
  | nil =>
    intro acc e rest _ he
    simp only [List.nil_append, segAux, he, if_true]
  | cons m mid ih =>
    intro acc e rest hm he
    have hm0 : listEnds m END_COMMENT = false := hm m (by simp)
    simp only [List.cons_append, segAux, hm0, if_false]
    exact ih acc e rest (fun x hx => hm x (by simp [hx])) he

-- ===================== C1 =====================

/-- C1 counterexample: for the file `def f():` / `"""doc"""` / `x = 1`, the
docstring delimiter line follows an accumulated `def f():` line, yet the
docstring text does not become part of the Code segment's text — the yielded
Code segment is `def f():\nx = 1\n`, which does not even contain `doc`.
(The rest of the claim does hold: the same Code segment keeps accumulating
and no Documentation segment is emitted.) -/
theorem c1_counterexample :
    split_code_every_multiline_comment
      [pystr "def f():\n", pystr "\"\"\"doc\"\"\"\n", pystr "x = 1\n"] =
      some [(pystr "def f():\nx = 1\n", .code)] ∧
    containsSeq (pystr "def f():\nx = 1\n") (pystr "doc") = false := by decide

/-- C1 (amended): when a documentation delimiter line immediately follows an
accumulated line that, stripped, ends with `:` and starts with `def ` or
`class `, the segmenter consumes the whole delimited block through its
closing delimiter and continues accumulating the same Code segment, emitting
no Documentation segment for it; however the block's text is discarded — it
does NOT become part of the Code segment's text.  Formally: running the
code-accumulating loop on the docstring block followed by any remaining lines
equals running it on the remaining lines alone, with the accumulated code
unchanged. -/
theorem c1_docstring_skipped :
    ∀ (acc : PyStr) (mid : List PyStr) (e : PyStr) (rest : List PyStr),
      listStarts ((mid ++ [e]).headD []) START_COMMENT = true →
      isDefHeader (prevLine acc) = true →
      (∀ x ∈ mid, listEnds x END_COMMENT = false) →
      listEnds e END_COMMENT = true →
      segAux (.inCode acc) ((mid ++ [e]) ++ rest) = segAux (.inCode acc) rest := by
  intro acc mid e rest hh hd hm he
  cases mid with
  | nil =>
    have hh' : listStarts e START_COMMENT = true := by simpa using hh
    simp [segAux, hh', hd, he]
  | cons m mid =>
    have hh' : listStarts m START_COMMENT = true := by simpa using hh
    have hm0 : listEnds m END_COMMENT = false := hm m (by simp)
    have hstep : segAux (.inCode acc) (((m :: mid) ++ [e]) ++ rest) =
        segAux (.inDoc acc) (mid ++ e :: rest) := by
      simp [segAux, hh', hd, hm0]
    rw [hstep]
    exact segAux_inDoc_skip mid acc e rest (fun x hx => hm x (by simp [hx])) he

/-- C1 witness: the amended theorem applied to the concrete block
`def f():` / `"""doc` / `"""` / `x = 1`. -/
theorem c1_witness :
    segAux (.inCode (pystr "def f():\n"))
      (([pystr "\"\"\"doc\n"] ++ [pystr "\"\"\"\n"]) ++ [pystr "x = 1\n"]) =
    segAux (.inCode (pystr "def f():\n")) [pystr "x = 1\n"] :=
  c1_docstring_skipped (pystr "def f():\n") [pystr "\"\"\"doc\n"] (pystr "\"\"\"\n")
    [pystr "x = 1\n"] (by decide) (by decide) (by decide) (by decide)

-- ===================== C5 =====================

/-- C5 counterexample: for the file `"""A"""` followed by `x = 1`, the
segmenter does yield a Documentation segment then a Code segment, but the
Documentation text is `A\n` — the inline text minus both delimiters with a
newline appended — not `A` as the claim states. -/
theorem c5_counterexample :
    split_code_every_multiline_comment [pystr "\"\"\"A\"\"\"\n", pystr "x = 1\n"] =
      some [(pystr "A\n", .comment), (pystr "x = 1\n", .code)] ∧
    pystr "A\n" ≠ pystr "A" := by decide

/-- C5 (amended): for the input file consisting of the single line `"""A"""`
immediately followed by one code line, the segmenter yields exactly two
segments in order: a Documentation segment with text `A\n` (the inline text
minus both delimiters, with a newline appended), then a Code segment
containing that code line; the inline block consumes no further lines. -/
theorem c5_inline_block :
    ∀ c : PyStr, c ≠ [] → listStarts c START_COMMENT = false →
      split_code_every_multiline_comment [pystr "\"\"\"A\"\"\"\n", c] =
        some [(pystr "A\n", .comment), (c, .code)] := by
  intro c _ hc
  have h1 : listStarts (pystr "\"\"\"A\"\"\"\n") START_COMMENT = true := by decide
  have h2 : inlineCommentText (pystr "\"\"\"A\"\"\"\n") = some (pystr "A\n") := by decide
  simp [split_code_every_multiline_comment, segAux, h1, h2, hc]

/-- C5 witness: the amended theorem applied to the code line `x = 1`. -/
theorem c5_witness :
    split_code_every_multiline_comment [pystr "\"\"\"A\"\"\"\n", pystr "x = 1\n"] =
      some [(pystr "A\n", .comment), (pystr "x = 1\n", .code)] :=
  c5_inline_block (pystr "x = 1\n") (by decide) (by decide)

-- ===================== C6 =====================

/-- C6 counterexample: the line `r"""A"""` (a raw-string-prefixed delimiter
line) does NOT open a Documentation segment: the whole file becomes a single
Code segment and no Documentation segment is yielded at all. -/
theorem c6_counterexample :
    split_code_every_multiline_comment [pystr "r\"\"\"A\"\"\"\n", pystr "x\n"] =
      some [(pystr "r\"\"\"A\"\"\"\nx\n", .code)] := by decide

/-- C6 (amended): the segmenter performs no string-prefix stripping of any
kind: a line opens a Documentation segment if and only if it begins with the
bare triple-quote delimiter itself; prefix-decorated delimiter lines (such as
`r"""...`) are treated as ordinary code lines.  Formally: the first segment
yielded for a nonempty file is a Documentation segment iff the first line
starts with the bare delimiter. -/
theorem c6_no_prefix_stripping :
    ∀ (l : PyStr) (ls : List PyStr) (out : List (PyStr × SnippetType)),
      split_code_every_multiline_comment (l :: ls) = some out →
      ∃ t k tl, out = (t, k) :: tl ∧
        (k = SnippetType.comment ↔ listStarts l START_COMMENT = true) := by
  intro l ls out h
  simp only [split_code_every_multiline_comment, segAux] at h
  by_cases hs : listStarts l START_COMMENT = true
  · simp only [hs, if_true] at h
    cases hic : inlineCommentText l with
    | some t =>
      rw [hic] at h
      rcases Option.map_eq_some'.1 h with ⟨tl, _, htl⟩
      exact ⟨t, .comment, tl, htl.symm, by simp [hs]⟩
    | none =>
      rw [hic] at h
      rcases segAux_inComment_head _ _ _ h with ⟨t, tl, htl⟩
      exact ⟨t, .comment, tl, htl, by simp [hs]⟩
  · simp only [hs, if_false] at h
    rcases (segAux_inCode_inDoc_head ls).1 _ _ h with ⟨t, tl, htl⟩
    refine ⟨t, .code, tl, htl, ?_⟩
    simp [hs]

/-- C6 witness: the amended theorem applied to the prefix-decorated file of
the counterexample. -/
theorem c6_witness :
    ∃ t k tl,
      [(pystr "r\"\"\"A\"\"\"\nx\n", SnippetType.code)] = (t, k) :: tl ∧
      (k = SnippetType.comment ↔ listStarts (pystr "r\"\"\"A\"\"\"\n") START_COMMENT = true) :=
  c6_no_prefix_stripping (pystr "r\"\"\"A\"\"\"\n") [pystr "x\n"]
    [(pystr "r\"\"\"A\"\"\"\nx\n", SnippetType.code)] (by decide)

-- ===================== C10 =====================

/-- C10: the comment-accumulating loop only recognizes a closing delimiter on
a line that ends with the delimiter immediately followed by a newline: (1) a
line not ending in delimiter-plus-newline is appended verbatim and the block
stays open; (2) if such a line ends the file — it ends with the bare
delimiter but has no trailing newline — it is appended verbatim (delimiter
characters included) and the segment is closed by end-of-file; (3) at the
whole-segmenter level, the file `"""` / `text"""` (no trailing newline)
yields one Documentation segment whose text `text"""` contains the delimiter
characters. -/
theorem c10_close_needs_newline :
    (∀ (acc l : PyStr) (ls : List PyStr), listEnds l END_COMMENT = false →
      segAux (.inComment acc) (l :: ls) = segAux (.inComment (acc ++ l)) ls) ∧
    (∀ acc l : PyStr, listEnds l START_COMMENT = true → listEnds l END_COMMENT = false →
      segAux (.inComment acc) [l] = some [(acc ++ l, .comment)]) ∧
    split_code_every_multiline_comment [pystr "\"\"\"\n", pystr "text\"\"\""] =
      some [(pystr "text\"\"\"", .comment)] := by
  refine ⟨?_, ?_, by decide⟩
  · intro acc l ls he
    simp [segAux, he]
  · intro acc l _ he
    simp [segAux, he]

/-- C10 witness: the two conditional parts applied to the line `x"""`
(ends with the delimiter, no trailing newline). -/
theorem c10_witness :
    segAux (.inComment (pystr "a\n")) [pystr "x\"\"\"", pystr "y\n"] =
      segAux (.inComment (pystr "a\n" ++ pystr "x\"\"\"")) [pystr "y\n"] ∧
    segAux (.inComment (pystr "a\n")) [pystr "x\"\"\""] =
      some [(pystr "a\n" ++ pystr "x\"\"\"", .comment)] :=
  ⟨c10_close_needs_newline.1 (pystr "a\n") (pystr "x\"\"\"") [pystr "y\n"] (by decide),
   c10_close_needs_newline.2.1 (pystr "a\n") (pystr "x\"\"\"") (by decide) (by decide)⟩

-- ===================== Handler and driver lemmas =====================

-- Once the passed flag is set, is_snippet_to_fast_forward_passed returns
-- early (main.py line 68) and leaves the handler unchanged.
theorem is_snippet_passed_of_passed (hh : FastForwardHandler) (x : Option PyStr)
    (hp : hh.snippet_to_fast_forward_passed = true) :
    is_snippet_to_fast_forward_passed hh x = (true, hh) := by
  cases x with
  | none => simp [is_snippet_to_fast_forward_passed, hp]
  | some t => simp [is_snippet_to_fast_forward_passed, hp]

-- Each handler operation preserves a set passed flag.
theorem applyOp_passed (h : FastForwardHandler) (op : FFOp)
    (hp : h.snippet_to_fast_forward_passed = true) :
    (applyOp h op).snippet_to_fast_forward_passed = true := by
  cases op with
  | incOp => simpa [applyOp, increment_snippet_counter] using hp
  | queryOp => simpa [applyOp] using hp
  | seenOp c => simp [applyOp, is_snippet_passed_of_passed h c hp, hp]

-- Processing a Code segment never touches the handler.
theorem stepSeg_code_handler {σ : Type} (ev : PyStr → Bool → σ → σ × Option PyStr)
    (i : Bool) (t : PyStr) (h : Option FastForwardHandler) (st : σ) :
    (stepSeg ev i (t, .code) h st).2.1 = h := by
  by_cases hex : is_code_to_execute t = false
  · simp [stepSeg, hex]
  · rcases hev : ev t (suppFlag h i) st with ⟨st', e⟩
    cases e <;> simp [stepSeg, hex, hev]

-- Processing any segment keeps a handler whose passed flag is set unchanged.
theorem stepSeg_passed {σ : Type} (ev : PyStr → Bool → σ → σ × Option PyStr)
    (i : Bool) (seg : PyStr × SnippetType) (hh : FastForwardHandler) (st : σ)
    (hp : hh.snippet_to_fast_forward_passed = true) :
    (stepSeg ev i seg (some hh) st).2.1 = some hh := by
  obtain ⟨t, ty⟩ := seg
  cases ty with
  | comment => simp [stepSeg, is_snippet_passed_of_passed hh _ hp]
  | code => exact stepSeg_code_handler ev i t (some hh) st

-- The per-segment counter advance preserves a set passed flag.
theorem incIfFF_passed (hh : FastForwardHandler)
    (hp : hh.snippet_to_fast_forward_passed = true) :
    ∃ hh', incIfFF (some hh) = some hh' ∧
      hh'.snippet_to_fast_forward_passed = true := by
  refine ⟨if is_fast_forwarding hh then increment_snippet_counter hh else hh,
    by simp [incIfFF], ?_⟩
  by_cases hf : is_fast_forwarding hh = true <;>
    simp [hf, increment_snippet_counter, hp]

-- Run-level: the driver never reverts a set passed flag.
theorem runDriver_passed_mono {σ : Type} (ev : PyStr → Bool → σ → σ × Option PyStr)
    (i : Bool) :
    ∀ (segs : List (PyStr × SnippetType)) (hh : FastForwardHandler) (st : σ)
      (ins : List PyStr),
      hh.snippet_to_fast_forward_passed = true →
      ∃ hh', (runDriver ev i segs (some hh) st ins).handler = some hh' ∧
        hh'.snippet_to_fast_forward_passed = true := by
  intro segs
  induction segs with
  | nil => intro hh st ins hp; exact ⟨hh, by simp [runDriver], hp⟩
  | cons seg rest ih =>
    intro hh st ins hp
    rcases incIfFF_passed hh hp with ⟨hh2, hinc, hp2⟩
    simp only [runDriver, stepSeg_passed ev i seg hh st hp, hinc, consStep]
    cases i with
    | false => simpa using ih hh2 _ ins hp2
    | true =>
      by_cases hf : ffNow (some hh2) = true
      · simpa [hf] using ih hh2 _ ins hp2
      · cases ins with
        | nil => exact ⟨hh2, by simp [hf], hp2⟩
        | cons v ins' =>
          by_cases hv : v = pystr "q"
          · exact ⟨hh2, by simp [hf, hv], hp2⟩
          · simpa [hf, hv] using ih hh2 _ ins' hp2

-- ===================== C4 =====================

/-- C4: once the fast-forward controller's passed state is true it stays
true: (1) no sequence of handler operations (increment, the
is_snippet_to_fast_forward_passed update for any comment, or the read-only
is_fast_forwarding query) ever clears it; (2) at run level, a driver run
started with a handler whose passed flag is set finishes with a handler
whose passed flag is still set. -/
theorem c4_passed_monotone :
    (∀ (h : FastForwardHandler) (ops : List FFOp),
      h.snippet_to_fast_forward_passed = true →
      (applyOps h ops).snippet_to_fast_forward_passed = true) ∧
    (∀ (σ : Type) (ev : PyStr → Bool → σ → σ × Option PyStr) (interactive : Bool)
      (segs : List (PyStr × SnippetType)) (hh : FastForwardHandler) (st : σ)
      (ins : List PyStr),
      hh.snippet_to_fast_forward_passed = true →
      ∃ hh', (runDriver ev interactive segs (some hh) st ins).handler = some hh' ∧
        hh'.snippet_to_fast_forward_passed = true) := by
  constructor
  · intro h ops
    induction ops generalizing h with
    | nil => intro hp; simpa [applyOps] using hp
    | cons op ops ih => intro hp; exact ih _ (applyOp_passed h op hp)
  · intro σ ev i segs hh st ins hp
    exact runDriver_passed_mono ev i segs hh st ins hp

/-- C4 witness: both parts applied to a concrete passed handler, a concrete
operation sequence and a concrete one-segment run. -/
theorem c4_witness :
    (applyOps ⟨.inr (pystr "s"), 0, true⟩
      [.incOp, .seenOp (some (pystr "x")), .queryOp]).snippet_to_fast_forward_passed
      = true ∧
    ∃ hh', (runDriver (fun _ _ n => (n + 1, none)) true [(pystr "x\n", .code)]
        (some ⟨.inr (pystr "s"), 0, true⟩) (0 : Nat) [pystr ""]).handler = some hh' ∧
      hh'.snippet_to_fast_forward_passed = true :=
  ⟨c4_passed_monotone.1 ⟨.inr (pystr "s"), 0, true⟩
      [.incOp, .seenOp (some (pystr "x")), .queryOp] rfl,
   c4_passed_monotone.2 Nat (fun _ _ n => (n + 1, none)) true [(pystr "x\n", .code)]
      ⟨.inr (pystr "s"), 0, true⟩ 0 [pystr ""] rfl⟩

-- ===================== C7 =====================

/-- C7: the snippet gate marks a Code segment non-executable iff its
stripped text starts with the comment marker immediately followed by the
opt-out keyword, with or without one space after the marker; a
non-executable segment is never evaluated (the namespace comes out
unchanged), the "Code not executed" notice is recorded instead, and the
segment still goes through the same fast-forward counter advance as every
other segment (shown by the run unfolding to the advance incIfFF h). -/
theorem c7_snippet_gate :
    (∀ s : PyStr, is_code_to_execute s = false ↔
      (listStarts (pyStrip s) (pystr "# pwmc:no_exec") = true ∨
       listStarts (pyStrip s) (pystr "#pwmc:no_exec") = true)) ∧
    (∀ (σ : Type) (ev : PyStr → Bool → σ → σ × Option PyStr) (interactive : Bool)
      (t : PyStr) (h : Option FastForwardHandler) (st : σ),
      is_code_to_execute t = false →
      stepSeg ev interactive (t, .code) h st = (.notExecuted, h, st)) ∧
    (∀ (σ : Type) (ev : PyStr → Bool → σ → σ × Option PyStr) (t : PyStr)
      (rest : List (PyStr × SnippetType)) (h : Option FastForwardHandler)
      (st : σ) (ins : List PyStr),
      is_code_to_execute t = false → ffNow (incIfFF h) = true →
      runDriver ev true ((t, .code) :: rest) h st ins =
        consStep ⟨.notExecuted, none, true⟩
          (runDriver ev true rest (incIfFF h) st ins)) := by
  refine ⟨?_, ?_, ?_⟩
  · intro s
    cases ha : listStarts (pyStrip s) (pystr "# pwmc:no_exec") <;>
      cases hb : listStarts (pyStrip s) (pystr "#pwmc:no_exec") <;>
        simp [is_code_to_execute, ha, hb]
  · intro σ ev i t h st hne
    simp [stepSeg, hne]
  · intro σ ev t rest h st ins hne hff
    simp [runDriver, stepSeg, hne, hff]

/-- C7 witness: the three parts applied to the concrete opt-out snippet
`# pwmc:no_exec` / `x = 1`. -/
theorem c7_witness :
    is_code_to_execute (pystr "# pwmc:no_exec\nx = 1\n") = false ∧
    stepSeg (fun _ _ n => (n + 1, (none : Option PyStr))) true
      (pystr "# pwmc:no_exec\nx = 1\n", .code) (some ⟨.inl 2, 0, false⟩) (5 : Nat) =
      (.notExecuted, some ⟨.inl 2, 0, false⟩, 5) ∧
    runDriver (fun _ _ n => (n + 1, none)) true
      [(pystr "# pwmc:no_exec\nx = 1\n", .code)] (some ⟨.inl 2, 0, false⟩) (5 : Nat) [] =
      consStep ⟨.notExecuted, none, true⟩
        (runDriver (fun _ _ n => (n + 1, none)) true []
          (incIfFF (some ⟨.inl 2, 0, false⟩)) 5 []) :=
  ⟨(c7_snippet_gate.1 (pystr "# pwmc:no_exec\nx = 1\n")).mpr (Or.inl (by decide)),
   c7_snippet_gate.2.1 Nat (fun _ _ n => (n + 1, none)) true
     (pystr "# pwmc:no_exec\nx = 1\n") (some ⟨.inl 2, 0, false⟩) 5 (by decide),
   c7_snippet_gate.2.2 Nat (fun _ _ n => (n + 1, none))
     (pystr "# pwmc:no_exec\nx = 1\n") [] (some ⟨.inl 2, 0, false⟩) 5 [] (by decide)
     (by decide)⟩

-- ===================== C8 =====================

/-- C8: for every run — non-interactive (the `--all` branch, main.py line
177) and interactive alike — when evaluating a Code segment raises, the
driver catches the fault, records it with the underlying message, hands the
namespace exactly as the evaluator left it (clearing nothing) to the rest of
the run, and proceeds to the next segment: the run on the faulting segment
followed by any remaining segments unfolds to the faulting step consed onto
the run of the remaining segments from the post-fault namespace.  No
per-segment evaluation failure terminates the run in either mode. -/
theorem c8_error_nonfatal :
    (∀ (σ : Type) (ev : PyStr → Bool → σ → σ × Option PyStr) (t : PyStr)
      (rest : List (PyStr × SnippetType)) (h : Option FastForwardHandler)
      (st st' : σ) (m : PyStr) (ins : List PyStr),
      is_code_to_execute t = true →
      ev t (suppFlag h false) st = (st', some m) →
      runDriver ev false ((t, .code) :: rest) h st ins =
        consStep ⟨.execErr (suppFlag h false) m, none, true⟩
          (runDriver ev false rest (incIfFF h) st' ins)) ∧
    (∀ (σ : Type) (ev : PyStr → Bool → σ → σ × Option PyStr) (t : PyStr)
      (rest : List (PyStr × SnippetType)) (h : Option FastForwardHandler)
      (st st' : σ) (m v : PyStr) (ins : List PyStr),
      is_code_to_execute t = true →
      ev t (suppFlag h true) st = (st', some m) →
      v ≠ pystr "q" →
      runDriver ev true ((t, .code) :: rest) h st (v :: ins) =
        if ffNow (incIfFF h) = true then
          consStep ⟨.execErr (suppFlag h true) m, none, true⟩
            (runDriver ev true rest (incIfFF h) st' (v :: ins))
        else
          consStep ⟨.execErr (suppFlag h true) m, some v, false⟩
            (runDriver ev true rest (incIfFF h) st' ins)) := by
  constructor
  · intro σ ev t rest h st st' m ins hex hev
    have hne : ¬ is_code_to_execute t = false := by simp [hex]
    simp [runDriver, stepSeg, hne, hev]
  · intro σ ev t rest h st st' m v ins hex hev hv
    have hne : ¬ is_code_to_execute t = false := by simp [hex]
    by_cases hf : ffNow (incIfFF h) = true
    · simp [runDriver, stepSeg, hne, hev, hf]
    · simp [runDriver, stepSeg, hne, hev, hf, hv]

/-- C8 witness: both parts applied to an evaluator that faults with message
`boom` while leaving the namespace at 7 — a non-interactive run (with empty
stdin; the error is recorded, suppress_plots is `not interactive` = true,
and the run continues into the remaining segment with namespace 7) and an
interactive run (likewise, reading one input line after the fault). -/
theorem c8_witness :
    (runDriver (fun _ _ n => (n + 7, some (pystr "boom"))) false
      [(pystr "x\n", .code), (pystr "y\n", .code)] none (0 : Nat) [] =
      consStep ⟨.execErr (suppFlag none false) (pystr "boom"), none, true⟩
        (runDriver (fun _ _ n => (n + 7, some (pystr "boom"))) false
          [(pystr "y\n", .code)] (incIfFF none) 7 [])) ∧
    (runDriver (fun _ _ n => (n + 7, some (pystr "boom"))) true
      [(pystr "x\n", .code), (pystr "y\n", .code)] none (0 : Nat)
      [pystr "", pystr ""] =
      if ffNow (incIfFF none) = true then
        consStep ⟨.execErr (suppFlag none true) (pystr "boom"), none, true⟩
          (runDriver (fun _ _ n => (n + 7, some (pystr "boom"))) true
            [(pystr "y\n", .code)] (incIfFF none) 7 [pystr "", pystr ""])
      else
        consStep ⟨.execErr (suppFlag none true) (pystr "boom"), some (pystr ""), false⟩
          (runDriver (fun _ _ n => (n + 7, some (pystr "boom"))) true
            [(pystr "y\n", .code)] (incIfFF none) 7 [pystr ""])) :=
  ⟨c8_error_nonfatal.1 Nat (fun _ _ n => (n + 7, some (pystr "boom"))) (pystr "x\n")
    [(pystr "y\n", .code)] none 0 7 (pystr "boom") []
    (by decide) (by decide),
   c8_error_nonfatal.2 Nat (fun _ _ n => (n + 7, some (pystr "boom"))) (pystr "x\n")
    [(pystr "y\n", .code)] none 0 7 (pystr "boom") (pystr "") [pystr ""]
    (by decide) (by decide) (by decide)⟩

-- ===================== C9 =====================

/-- C9: if the line read at a blocking prompt is exactly `q`, the driver
stops at once: the run of the current segment followed by any remaining
segments produces only the current segment's step, the remaining segments
are never rendered or evaluated (the result does not depend on them), and
the outcome is the clean quit, not an error. -/
theorem c9_quit :
    ∀ (σ : Type) (ev : PyStr → Bool → σ → σ × Option PyStr)
      (seg : PyStr × SnippetType) (rest : List (PyStr × SnippetType))
      (h : Option FastForwardHandler) (st : σ) (ins : List PyStr),
      ffNow (incIfFF (stepSeg ev true seg h st).2.1) = false →
      runDriver ev true (seg :: rest) h st (pystr "q" :: ins) =
        ⟨[⟨(stepSeg ev true seg h st).1, some (pystr "q"), false⟩],
         incIfFF (stepSeg ev true seg h st).2.1,
         (stepSeg ev true seg h st).2.2, ins, .quit⟩ := by
  intro σ ev seg rest h st ins hf
  simp [runDriver, hf]

/-- C9 witness: a two-segment run with first input `q` stops after the first
segment with outcome quit; the second segment is never processed. -/
theorem c9_witness :
    runDriver (fun _ _ n => (n + 1, (none : Option PyStr))) true
      [(pystr "a\n", .code), (pystr "b\n", .code)] none (0 : Nat)
      [pystr "q", pystr ""] =
      ⟨[⟨(stepSeg (fun _ _ n => (n + 1, (none : Option PyStr))) true
            (pystr "a\n", .code) none 0).1, some (pystr "q"), false⟩],
       incIfFF (stepSeg (fun _ _ n => (n + 1, (none : Option PyStr))) true
            (pystr "a\n", .code) none 0).2.1,
       (stepSeg (fun _ _ n => (n + 1, (none : Option PyStr))) true
            (pystr "a\n", .code) none 0).2.2, [pystr ""], .quit⟩ :=
  c9_quit Nat (fun _ _ n => (n + 1, (none : Option PyStr))) (pystr "a\n", .code)
    [(pystr "b\n", .code)] none 0 [pystr ""] (by decide)

-- With an integer target, is_snippet_to_fast_forward_passed never changes
-- the handler (the type check at main.py line 69 fails).
theorem is_snippet_passed_inl (n c : Int) (p : Bool) (x : Option PyStr) :
    (is_snippet_to_fast_forward_passed ⟨.inl n, c, p⟩ x).2 = ⟨.inl n, c, p⟩ := by
  cases x with
  | none => rfl
  | some t =>
    by_cases h0 : t = [] ∨ (⟨.inl n, c, p⟩ : FastForwardHandler).snippet_to_fast_forward_passed = true
    · simp [is_snippet_to_fast_forward_passed, h0]
    · simp [is_snippet_to_fast_forward_passed, h0]

-- With an integer target, processing any segment leaves the handler as it was.
theorem stepSeg_handler_inl {σ : Type} (ev : PyStr → Bool → σ → σ × Option PyStr)
    (i : Bool) (seg : PyStr × SnippetType) (n c : Int) (p : Bool) (st : σ) :
    (stepSeg ev i seg (some ⟨.inl n, c, p⟩) st).2.1 = some ⟨.inl n, c, p⟩ := by
  obtain ⟨t, ty⟩ := seg
  cases ty with
  | comment => simp [stepSeg, is_snippet_passed_inl]
  | code => exact stepSeg_code_handler ev i t _ st

-- The suppress flag recorded for an evaluated segment is exactly the
-- suppress_plots argument computed at main.py lines 167-168.
theorem stepSeg_supp {σ : Type} (ev : PyStr → Bool → σ → σ × Option PyStr)
    (i : Bool) (seg : PyStr × SnippetType) (h : Option FastForwardHandler) (st : σ) :
    ∀ b, actSuppFlag (stepSeg ev i seg h st).1 = some b → b = suppFlag h i := by
  obtain ⟨t, ty⟩ := seg
  cases ty with
  | comment =>
    intro b hb
    simp [stepSeg, actSuppFlag] at hb
  | code =>
    intro b hb
    by_cases hex : is_code_to_execute t = false
    · simp [stepSeg, hex, actSuppFlag] at hb
    · rcases hev : ev t (suppFlag h i) st with ⟨st', e⟩
      cases e with
      | none =>
        simp [stepSeg, hex, hev, actSuppFlag] at hb
        exact hb.symm
      | some m =>
        simp [stepSeg, hex, hev, actSuppFlag] at hb
        exact hb.symm

-- The per-segment behaviour of a run with an integer fast-forward target,
-- from an arbitrary counter value c: the k-th processed segment (0-based)
-- does not block iff c + k + 1 ≤ N, and an evaluated segment's suppress
-- flag is true iff c + k ≤ N.
theorem runInt_aux {σ : Type} (ev : PyStr → Bool → σ → σ × Option PyStr)
    (N : Int) (p : Bool) :
    ∀ (segs : List (PyStr × SnippetType)) (c : Int) (st : σ) (ins : List PyStr),
      segs.length ≤ ins.length →
      (∀ v ∈ ins, v ≠ pystr "q") →
      (runDriver ev true segs (some ⟨.inl N, c, p⟩) st ins).steps.length = segs.length ∧
      ∀ k, k < segs.length →
        ((((runDriver ev true segs (some ⟨.inl N, c, p⟩) st ins).steps.getD k
            defaultStep).prompted = none) ↔ c + (k : Int) + 1 ≤ N) ∧
        (∀ b, actSuppFlag (((runDriver ev true segs (some ⟨.inl N, c, p⟩) st
            ins).steps.getD k defaultStep).act) = some b →
          (b = true ↔ c + (k : Int) ≤ N)) := by
  intro segs
  induction segs with
  | nil =>
    intro c st ins _ _
    refine ⟨by simp [runDriver], ?_⟩
    intro k hk
    simp at hk
  | cons seg rest ih =>
    intro c st ins hlen hq
    rcases hsdef : stepSeg ev true seg (some ⟨.inl N, c, p⟩) st with ⟨act, hmid, st1⟩
    have hmid' : hmid = some (⟨.inl N, c, p⟩ : FastForwardHandler) := by
      have h0 := stepSeg_handler_inl ev true seg N c p st
      rw [hsdef] at h0
      exact h0
    subst hmid'
    have hsupp : ∀ b, actSuppFlag act = some b → (b = true ↔ c ≤ N) := by
      intro b hb
      have h0 := stepSeg_supp ev true seg (some ⟨.inl N, c, p⟩) st b
        (by rw [hsdef]; exact hb)
      rw [h0]
      simp [suppFlag, is_fast_forwarding]
    by_cases hb : c + 1 ≤ N
    · have hc : c ≤ N := by omega
      have hinc : incIfFF (some (⟨.inl N, c, p⟩ : FastForwardHandler)) =
          some ⟨.inl N, c + 1, p⟩ := by
        simp [incIfFF, is_fast_forwarding, increment_snippet_counter, hc]
      have hffn : ffNow (some (⟨.inl N, c + 1, p⟩ : FastForwardHandler)) = true := by
        simpa [ffNow, is_fast_forwarding] using hb
      have hrun : runDriver ev true (seg :: rest) (some ⟨.inl N, c, p⟩) st ins =
          consStep ⟨act, none, true⟩
            (runDriver ev true rest (some ⟨.inl N, c + 1, p⟩) st1 ins) := by
        simp [runDriver, hsdef, hinc, hffn]
      rw [hrun]
      have hlen' : rest.length ≤ ins.length := by
        simp only [List.length_cons] at hlen; omega
      obtain ⟨ihlen, ihidx⟩ := ih (c + 1) st1 ins hlen' hq
      refine ⟨by simp [consStep, ihlen], ?_⟩
      intro k hk
      cases k with
      | zero =>
        refine ⟨?_, ?_⟩
        · simp only [consStep, List.getD_cons_zero]
          simp
          omega
        · intro b hbb
          have hb0 : actSuppFlag act = some b := by
            simpa [consStep] using hbb
          rw [hsupp b hb0]
          push_cast
          omega
      | succ k' =>
        have hk' : k' < rest.length := by
          simp only [List.length_cons] at hk; omega
        obtain ⟨ihp, ihs⟩ := ihidx k' hk'
        refine ⟨?_, ?_⟩
        · simp only [consStep, List.getD_cons_succ]
          rw [ihp]
          push_cast
          omega
        · intro b hbb
          have hb0 := ihs b (by simpa [consStep] using hbb)
          rw [hb0]
          push_cast
          omega
    · set c' : Int := if c ≤ N then c + 1 else c with hcdef
      have hinc : incIfFF (some (⟨.inl N, c, p⟩ : FastForwardHandler)) =
          some ⟨.inl N, c', p⟩ := by
        by_cases hc : c ≤ N <;>
          simp [incIfFF, is_fast_forwarding, increment_snippet_counter, hc, hcdef]
      have hcn : ¬ (c' ≤ N) := by
        rw [hcdef]
        by_cases hc : c ≤ N
        · rw [if_pos hc]; omega
        · rw [if_neg hc]; exact hc
      have hffn : ffNow (some (⟨.inl N, c', p⟩ : FastForwardHandler)) = false := by
        simp [ffNow, is_fast_forwarding, hcn]
      cases ins with
      | nil =>
        simp only [List.length_cons, List.length_nil] at hlen
        omega
      | cons v ins' =>
        have hv : v ≠ pystr "q" := hq v (by simp)
        have hrun : runDriver ev true (seg :: rest) (some ⟨.inl N, c, p⟩) st (v :: ins') =
            consStep ⟨act, some v, false⟩
              (runDriver ev true rest (some ⟨.inl N, c', p⟩) st1 ins') := by
          simp [runDriver, hsdef, hinc, hffn, hv]
        rw [hrun]
        have hlen' : rest.length ≤ ins'.length := by
          simp only [List.length_cons] at hlen; omega
        have hq' : ∀ u ∈ ins', u ≠ pystr "q" := fun u hu => hq u (by simp [hu])
        obtain ⟨ihlen, ihidx⟩ := ih c' st1 ins' hlen' hq'
        refine ⟨by simp [consStep, ihlen], ?_⟩
        intro k hk
        cases k with
        | zero =>
          refine ⟨?_, ?_⟩
          · simp only [consStep, List.getD_cons_zero]
            simp
            omega
          · intro b hbb
            have hb0 : actSuppFlag act = some b := by
              simpa [consStep] using hbb
            rw [hsupp b hb0]
            push_cast
            omega
        | succ k' =>
          have hk' : k' < rest.length := by
            simp only [List.length_cons] at hk; omega
          obtain ⟨ihp, ihs⟩ := ihidx k' hk'
          refine ⟨?_, ?_⟩
          · simp only [consStep, List.getD_cons_succ]
            rw [ihp, hcdef]
            split <;> push_cast <;> omega
          · intro b hbb
            have hb0 := ihs b (by simpa [consStep] using hbb)
            rw [hb0, hcdef]
            split <;> push_cast <;> omega

-- ===================== C2 =====================

/-- C2 counterexample: with ordinal target N = 2 over four executable Code
segments, the third segment (ordinal 3 > N) is still evaluated with side
effects suppressed (its recorded suppress flag is true), so it is not
"processed as normal interactive mode" as the claim states; only from the
fourth segment on is evaluation unsuppressed. -/
theorem c2_counterexample :
    runDriver (fun _ _ n => (n + 1, none)) true
      [(pystr "a\n", .code), (pystr "b\n", .code), (pystr "c\n", .code),
       (pystr "d\n", .code)]
      (mkHandler (some (.inl 2))) (0 : Nat) [pystr "", pystr ""] =
      ⟨[⟨.execOk true, none, true⟩, ⟨.execOk true, none, true⟩,
        ⟨.execOk true, some (pystr ""), false⟩,
        ⟨.execOk false, some (pystr ""), false⟩],
       some ⟨.inl 2, 3, false⟩, 4, [], .finished⟩ ∧
    actSuppFlag ((runDriver (fun _ _ n => (n + 1, none)) true
      [(pystr "a\n", .code), (pystr "b\n", .code), (pystr "c\n", .code),
       (pystr "d\n", .code)]
      (mkHandler (some (.inl 2))) (0 : Nat)
      [pystr "", pystr ""]).steps.getD 2 defaultStep).act = some true := by decide

/-- C2 (amended): for every interactive run with an integer fast-forward
target N ≥ 1 (and no quit keystroke, with enough input lines), the k-th
processed segment (1-based ordinal k+1 for 0-based k): does not block for
input iff its ordinal is ≤ N, and — when it is evaluated — its side effects
are suppressed iff its ordinal is ≤ N + 1.  So segments 1..N are
fast-forwarded (suppressed, non-blocking), segment N+1 is still evaluated
with side effects suppressed but then blocks for input, and segments ≥ N+2
behave as normal interactive mode.  (The counter starts at 0 and is compared
with ≤ N before being incremented, hence the extra suppressed segment.) -/
theorem c2_fast_forward_ordinal :
    ∀ (σ : Type) (ev : PyStr → Bool → σ → σ × Option PyStr) (N : Int)
      (segs : List (PyStr × SnippetType)) (st : σ) (ins : List PyStr),
      1 ≤ N →
      segs.length ≤ ins.length →
      (∀ v ∈ ins, v ≠ pystr "q") →
      (runDriver ev true segs (mkHandler (some (.inl N))) st ins).steps.length
        = segs.length ∧
      ∀ k, k < segs.length →
        ((((runDriver ev true segs (mkHandler (some (.inl N))) st ins).steps.getD k
            defaultStep).prompted = none) ↔ (k : Int) + 1 ≤ N) ∧
        (∀ b, actSuppFlag (((runDriver ev true segs (mkHandler (some (.inl N))) st
            ins).steps.getD k defaultStep).act) = some b →
          (b = true ↔ (k : Int) + 1 ≤ N + 1)) := by
  intro σ ev N segs st ins hN hlen hq
  have hmk : mkHandler (some (.inl N)) =
      some (⟨.inl N, 0, false⟩ : FastForwardHandler) := by
    simp [mkHandler, FastForwardHandler.init, show N ≠ 0 by omega]
  rw [hmk]
  obtain ⟨h1, h2⟩ := runInt_aux ev N false segs 0 st ins hlen hq
  refine ⟨h1, ?_⟩
  intro k hk
  obtain ⟨hp, hs⟩ := h2 k hk
  refine ⟨?_, ?_⟩
  · rw [hp]; omega
  · intro b hbb
    rw [hs b hbb]; omega

/-- C2 witness: the amended theorem applied to the concrete N = 2 run of the
counterexample (with four input lines). -/
theorem c2_witness :
    (runDriver (fun _ _ n => (n + 1, none)) true
      [(pystr "a\n", .code), (pystr "b\n", .code), (pystr "c\n", .code),
       (pystr "d\n", .code)]
      (mkHandler (some (.inl 2))) (0 : Nat)
      [pystr "", pystr "", pystr "", pystr ""]).steps.length = 4 :=
  (c2_fast_forward_ordinal Nat (fun _ _ n => (n + 1, none)) 2
    [(pystr "a\n", .code), (pystr "b\n", .code), (pystr "c\n", .code),
     (pystr "d\n", .code)] 0
    [pystr "", pystr "", pystr "", pystr ""]
    (by decide) (by decide) (by decide)).1

-- With a substring target and the passed flag still clear, a comment whose
-- lowercased text does not contain the target leaves the handler unchanged.
theorem is_snippet_passed_nomatch (S t : PyStr) (c : Int)
    (hm : containsSeq (pyLower t) S = false) :
    (is_snippet_to_fast_forward_passed ⟨.inr S, c, false⟩ (some t)).2 =
      ⟨.inr S, c, false⟩ := by
  by_cases h0 : t = []
  · simp [is_snippet_to_fast_forward_passed, h0]
  · simp [is_snippet_to_fast_forward_passed, h0, hm]

-- A (nonempty) comment whose lowercased text contains the target sets the
-- passed flag.
theorem is_snippet_passed_match (S t : PyStr) (c : Int)
    (hne : t ≠ []) (hm : containsSeq (pyLower t) S = true) :
    (is_snippet_to_fast_forward_passed ⟨.inr S, c, false⟩ (some t)).2 =
      ⟨.inr S, c, true⟩ := by
  simp [is_snippet_to_fast_forward_passed, hne, hm]

-- Before the target is found, a segment that is not a matching comment
-- leaves the handler unchanged by step processing.
theorem stepSeg_str_nomatch {σ : Type} (ev : PyStr → Bool → σ → σ × Option PyStr)
    (seg : PyStr × SnippetType) (S : PyStr) (c : Int) (st : σ)
    (hnm : seg.2 = SnippetType.comment → containsSeq (pyLower seg.1) S = false) :
    (stepSeg ev true seg (some ⟨.inr S, c, false⟩) st).2.1 =
      some ⟨.inr S, c, false⟩ := by
  obtain ⟨t, ty⟩ := seg
  cases ty with
  | comment => simp [stepSeg, is_snippet_passed_nomatch S t c (hnm rfl)]
  | code => exact stepSeg_code_handler ev true t _ st

-- After the target has been found the run behaves as normal interactive
-- mode for every remaining segment: every step blocks for input and every
-- evaluated segment has its suppress flag off.
theorem runStr_passed_aux {σ : Type} (ev : PyStr → Bool → σ → σ × Option PyStr)
    (S : PyStr) (c : Int) :
    ∀ (segs : List (PyStr × SnippetType)) (st : σ) (ins : List PyStr),
      segs.length ≤ ins.length →
      (∀ v ∈ ins, v ≠ pystr "q") →
      (runDriver ev true segs (some ⟨.inr S, c, true⟩) st ins).steps.length
        = segs.length ∧
      ∀ k, k < segs.length →
        (((runDriver ev true segs (some ⟨.inr S, c, true⟩) st ins).steps.getD k
            defaultStep).prompted ≠ none) ∧
        (∀ b, actSuppFlag (((runDriver ev true segs (some ⟨.inr S, c, true⟩) st
            ins).steps.getD k defaultStep).act) = some b → b = false) := by
  intro segs
  induction segs with
  | nil =>
    intro st ins _ _
    refine ⟨by simp [runDriver], ?_⟩
    intro k hk
    simp at hk
  | cons seg rest ih =>
    intro st ins hlen hq
    rcases hsdef : stepSeg ev true seg (some ⟨.inr S, c, true⟩) st with ⟨act, hmid, st1⟩
    have hmid' : hmid = some (⟨.inr S, c, true⟩ : FastForwardHandler) := by
      have h0 := stepSeg_passed ev true seg ⟨.inr S, c, true⟩ st rfl
      rw [hsdef] at h0
      exact h0
    subst hmid'
    have hsupp : ∀ b, actSuppFlag act = some b → b = false := by
      intro b hb
      have h0 := stepSeg_supp ev true seg (some ⟨.inr S, c, true⟩) st b
        (by rw [hsdef]; exact hb)
      rw [h0]
      simp [suppFlag, is_fast_forwarding]
    have hinc : incIfFF (some (⟨.inr S, c, true⟩ : FastForwardHandler)) =
        some ⟨.inr S, c, true⟩ := by
      simp [incIfFF, is_fast_forwarding]
    have hffn : ffNow (some (⟨.inr S, c, true⟩ : FastForwardHandler)) = false := by
      simp [ffNow, is_fast_forwarding]
    cases ins with
    | nil =>
      simp only [List.length_cons, List.length_nil] at hlen
      omega
    | cons v ins' =>
      have hv : v ≠ pystr "q" := hq v (by simp)
      have hrun : runDriver ev true (seg :: rest) (some ⟨.inr S, c, true⟩) st (v :: ins') =
          consStep ⟨act, some v, false⟩
            (runDriver ev true rest (some ⟨.inr S, c, true⟩) st1 ins') := by
        simp [runDriver, hsdef, hinc, hffn, hv]
      rw [hrun]
      have hlen' : rest.length ≤ ins'.length := by
        simp only [List.length_cons] at hlen; omega
      have hq' : ∀ u ∈ ins', u ≠ pystr "q" := fun u hu => hq u (by simp [hu])
      obtain ⟨ihlen, ihidx⟩ := ih st1 ins' hlen' hq'
      refine ⟨by simp [consStep, ihlen], ?_⟩
      intro k hk
      cases k with
      | zero =>
        refine ⟨by simp [consStep], ?_⟩
        intro b hbb
        exact hsupp b (by simpa [consStep] using hbb)
      | succ k' =>
        have hk' : k' < rest.length := by
          simp only [List.length_cons] at hk; omega
        obtain ⟨ihp, ihs⟩ := ihidx k' hk'
        refine ⟨?_, ?_⟩
        · simpa only [consStep, List.getD_cons_succ] using ihp
        · intro b hbb
          exact ihs b (by simpa [consStep] using hbb)

-- The full behaviour of a substring-target run around the first matching
-- Documentation segment: every segment strictly before it is fast-forwarded
-- (non-blocking; evaluated segments suppressed); the matching segment itself
-- is rendered and then blocks; every later segment behaves normally —
-- whatever its content, so in particular even if a later comment also
-- contains the target.
theorem runStr_pre_aux {σ : Type} (ev : PyStr → Bool → σ → σ × Option PyStr)
    (S : PyStr) :
    ∀ (pre : List (PyStr × SnippetType)) (t : PyStr)
      (post : List (PyStr × SnippetType)) (c : Int) (st : σ) (ins : List PyStr),
      (∀ u ∈ pre, u.2 = SnippetType.comment → containsSeq (pyLower u.1) S = false) →
      t ≠ [] →
      containsSeq (pyLower t) S = true →
      (∀ v ∈ ins, v ≠ pystr "q") →
      post.length + 1 ≤ ins.length →
      (runDriver ev true (pre ++ (t, .comment) :: post) (some ⟨.inr S, c, false⟩)
          st ins).steps.length = pre.length + 1 + post.length ∧
      (∀ k, k < pre.length →
        (((runDriver ev true (pre ++ (t, .comment) :: post) (some ⟨.inr S, c, false⟩)
            st ins).steps.getD k defaultStep).prompted = none) ∧
        (∀ b, actSuppFlag (((runDriver ev true (pre ++ (t, .comment) :: post)
            (some ⟨.inr S, c, false⟩) st ins).steps.getD k defaultStep).act) = some b →
          b = true)) ∧
      ((((runDriver ev true (pre ++ (t, .comment) :: post) (some ⟨.inr S, c, false⟩)
          st ins).steps.getD pre.length defaultStep).act = .rendered t) ∧
       (((runDriver ev true (pre ++ (t, .comment) :: post) (some ⟨.inr S, c, false⟩)
          st ins).steps.getD pre.length defaultStep).prompted ≠ none)) ∧
      (∀ k, pre.length + 1 ≤ k → k < pre.length + 1 + post.length →
        (((runDriver ev true (pre ++ (t, .comment) :: post) (some ⟨.inr S, c, false⟩)
            st ins).steps.getD k defaultStep).prompted ≠ none) ∧
        (∀ b, actSuppFlag (((runDriver ev true (pre ++ (t, .comment) :: post)
            (some ⟨.inr S, c, false⟩) st ins).steps.getD k defaultStep).act) = some b →
          b = false)) := by
  intro pre
  induction pre with
  | nil =>
    intro t post c st ins _ hne hm hq hlen
    have hsdef : stepSeg ev true (t, .comment) (some ⟨.inr S, c, false⟩) st =
        (.rendered t, some ⟨.inr S, c, true⟩, st) := by
      simp [stepSeg, is_snippet_passed_match S t c hne hm]
    have hinc : incIfFF (some (⟨.inr S, c, true⟩ : FastForwardHandler)) =
        some ⟨.inr S, c, true⟩ := by
      simp [incIfFF, is_fast_forwarding]
    have hffn : ffNow (some (⟨.inr S, c, true⟩ : FastForwardHandler)) = false := by
      simp [ffNow, is_fast_forwarding]
    cases ins with
    | nil =>
      simp only [List.length_nil] at hlen
      omega
    | cons v ins' =>
      have hv : v ≠ pystr "q" := hq v (by simp)
      have hrun : runDriver ev true ((t, .comment) :: post)
          (some ⟨.inr S, c, false⟩) st (v :: ins') =
          consStep ⟨.rendered t, some v, false⟩
            (runDriver ev true post (some ⟨.inr S, c, true⟩) st ins') := by
        simp [runDriver, hsdef, hinc, hffn, hv]
      have hlen' : post.length ≤ ins'.length := by
        simp only [List.length_cons] at hlen; omega
      have hq' : ∀ u ∈ ins', u ≠ pystr "q" := fun u hu => hq u (by simp [hu])
      obtain ⟨ihlen, ihidx⟩ := runStr_passed_aux ev S c post st ins' hlen' hq'
      simp only [List.nil_append]
      rw [hrun]
      refine ⟨by simp [consStep, ihlen]; omega, ?_, ?_, ?_⟩
      · intro k hk
        simp at hk
      · simp [consStep]
      · intro k hk1 hk2
        simp only [List.length_nil, Nat.zero_add] at hk1 hk2
        cases k with
        | zero => omega
        | succ k' =>
          have hk' : k' < post.length := by omega
          obtain ⟨ihp, ihs⟩ := ihidx k' hk'
          refine ⟨?_, ?_⟩
          · simpa only [consStep, List.getD_cons_succ] using ihp
          · intro b hbb
            exact ihs b (by simpa [consStep] using hbb)
  | cons u pre' ih =>
    intro t post c st ins hpre hne hm hq hlen
    rcases hsdef : stepSeg ev true u (some ⟨.inr S, c, false⟩) st with ⟨act, hmid, st1⟩
    have hmid' : hmid = some (⟨.inr S, c, false⟩ : FastForwardHandler) := by
      have h0 := stepSeg_str_nomatch ev u S c st (hpre u (by simp))
      rw [hsdef] at h0
      exact h0
    subst hmid'
    have hsupp : ∀ b, actSuppFlag act = some b → b = true := by
      intro b hb
      have h0 := stepSeg_supp ev true u (some ⟨.inr S, c, false⟩) st b
        (by rw [hsdef]; exact hb)
      rw [h0]
      simp [suppFlag, is_fast_forwarding]
    have hinc : incIfFF (some (⟨.inr S, c, false⟩ : FastForwardHandler)) =
        some ⟨.inr S, c + 1, false⟩ := by
      simp [incIfFF, is_fast_forwarding, increment_snippet_counter]
    have hffn : ffNow (some (⟨.inr S, c + 1, false⟩ : FastForwardHandler)) = true := by
      simp [ffNow, is_fast_forwarding]
    have hrun : runDriver ev true ((u :: pre') ++ (t, .comment) :: post)
        (some ⟨.inr S, c, false⟩) st ins =
        consStep ⟨act, none, true⟩
          (runDriver ev true (pre' ++ (t, .comment) :: post)
            (some ⟨.inr S, c + 1, false⟩) st1 ins) := by
      simp [runDriver, hsdef, hinc, hffn]
    rw [hrun]
    have hpre' : ∀ x ∈ pre', x.2 = SnippetType.comment →
        containsSeq (pyLower x.1) S = false :=
      fun x hx => hpre x (by simp [hx])
    obtain ⟨ihlen, ihpre, ihmatch, ihpost⟩ :=
      ih t post (c + 1) st1 ins hpre' hne hm hq hlen
    refine ⟨by simp [consStep, ihlen, List.length_cons]; omega, ?_, ?_, ?_⟩
    · intro k hk
      cases k with
      | zero =>
        refine ⟨by simp [consStep], ?_⟩
        intro b hbb
        exact hsupp b (by simpa [consStep] using hbb)
      | succ k' =>
        have hk' : k' < pre'.length := by
          simp only [List.length_cons] at hk; omega
        obtain ⟨ihp, ihs⟩ := ihpre k' hk'
        refine ⟨?_, ?_⟩
        · simpa only [consStep, List.getD_cons_succ] using ihp
        · intro b hbb
          exact ihs b (by simpa [consStep] using hbb)
    · simp only [List.length_cons]
      refine ⟨?_, ?_⟩
      · simpa only [consStep, List.getD_cons_succ] using ihmatch.1
      · simpa only [consStep, List.getD_cons_succ] using ihmatch.2
    · intro k hk1 hk2
      simp only [List.length_cons] at hk1 hk2
      cases k with
      | zero => omega
      | succ k' =>
        have hk1' : pre'.length + 1 ≤ k' := by omega
        have hk2' : k' < pre'.length + 1 + post.length := by omega
        obtain ⟨ihp, ihs⟩ := ihpost k' hk1' hk2'
        refine ⟨?_, ?_⟩
        · simpa only [consStep, List.getD_cons_succ] using ihp
        · intro b hbb
          exact ihs b (by simpa [consStep] using hbb)

-- ===================== C3 =====================

/-- C3 counterexample: with substring target `setup`, the first Documentation
segment whose text contains it (case-insensitively) — the third segment —
blocks for input after being rendered (its step records a prompted line),
contradicting the claim that every segment up to and including the first
match is processed without blocking. -/
theorem c3_counterexample :
    runDriver (fun _ _ n => (n + 1, none)) true
      [(pystr "intro\n", .comment), (pystr "x\n", .code),
       (pystr "has Setup here\n", .comment), (pystr "y\n", .code)]
      (mkHandler (some (.inr (pystr "setup")))) (0 : Nat) [pystr "", pystr ""] =
      ⟨[⟨.rendered (pystr "intro\n"), none, true⟩, ⟨.execOk true, none, true⟩,
        ⟨.rendered (pystr "has Setup here\n"), some (pystr ""), false⟩,
        ⟨.execOk false, some (pystr ""), false⟩],
       some ⟨.inr (pystr "setup"), 2, true⟩, 2, [], .finished⟩ ∧
    ((runDriver (fun _ _ n => (n + 1, none)) true
      [(pystr "intro\n", .comment), (pystr "x\n", .code),
       (pystr "has Setup here\n", .comment), (pystr "y\n", .code)]
      (mkHandler (some (.inr (pystr "setup")))) (0 : Nat)
      [pystr "", pystr ""]).steps.getD 2 defaultStep).prompted = some (pystr "") := by
  decide

/-- C3 (amended): for every interactive run with a substring target S (the
CLI hands it over nonempty and lowercased), writing the segment stream as
pre ++ match ++ post where no Documentation segment of pre contains S
(case-insensitively) and the match is the first Documentation segment whose
text does contain S: every segment of pre is processed with side effects
suppressed and without blocking; the matching segment itself is rendered and
then DOES block for input (one line is read after it); and every segment of
post behaves as normal interactive mode (blocking, unsuppressed) — even if a
later Documentation segment in post also contains S, since post is
unconstrained here. -/
theorem c3_fast_forward_substring :
    ∀ (σ : Type) (ev : PyStr → Bool → σ → σ × Option PyStr) (S : PyStr)
      (pre : List (PyStr × SnippetType)) (t : PyStr)
      (post : List (PyStr × SnippetType)) (st : σ) (ins : List PyStr),
      S ≠ [] →
      (∀ u ∈ pre, u.2 = SnippetType.comment → containsSeq (pyLower u.1) S = false) →
      t ≠ [] →
      containsSeq (pyLower t) S = true →
      (∀ v ∈ ins, v ≠ pystr "q") →
      post.length + 1 ≤ ins.length →
      (runDriver ev true (pre ++ (t, .comment) :: post)
          (mkHandler (some (.inr S))) st ins).steps.length
        = pre.length + 1 + post.length ∧
      (∀ k, k < pre.length →
        (((runDriver ev true (pre ++ (t, .comment) :: post)
            (mkHandler (some (.inr S))) st ins).steps.getD k
            defaultStep).prompted = none) ∧
        (∀ b, actSuppFlag (((runDriver ev true (pre ++ (t, .comment) :: post)
            (mkHandler (some (.inr S))) st ins).steps.getD k defaultStep).act)
            = some b → b = true)) ∧
      ((((runDriver ev true (pre ++ (t, .comment) :: post)
          (mkHandler (some (.inr S))) st ins).steps.getD pre.length
          defaultStep).act = .rendered t) ∧
       (((runDriver ev true (pre ++ (t, .comment) :: post)
          (mkHandler (some (.inr S))) st ins).steps.getD pre.length
          defaultStep).prompted ≠ none)) ∧
      (∀ k, pre.length + 1 ≤ k → k < pre.length + 1 + post.length →
        (((runDriver ev true (pre ++ (t, .comment) :: post)
            (mkHandler (some (.inr S))) st ins).steps.getD k
            defaultStep).prompted ≠ none) ∧
        (∀ b, actSuppFlag (((runDriver ev true (pre ++ (t, .comment) :: post)
            (mkHandler (some (.inr S))) st ins).steps.getD k defaultStep).act)
            = some b → b = false)) := by
  intro σ ev S pre t post st ins hS hpre hne hm hq hlen
  have hmk : mkHandler (some (.inr S)) =
      some (⟨.inr S, 0, false⟩ : FastForwardHandler) := by
    simp [mkHandler, FastForwardHandler.init, hS]
  rw [hmk]
  exact runStr_pre_aux ev S pre t post 0 st ins hpre hne hm hq hlen

/-- C3 witness: the amended theorem applied to the run of the counterexample
(quantifier-free consequences: the step count, and the matching segment's
rendered-then-prompted step). -/
theorem c3_witness :
    (runDriver (fun _ _ n => (n + 1, none)) true
      ([(pystr "intro\n", .comment), (pystr "x\n", .code)] ++
        (pystr "has Setup here\n", .comment) :: [(pystr "y\n", .code)])
      (mkHandler (some (.inr (pystr "setup")))) (0 : Nat)
      [pystr "", pystr ""]).steps.length = 4 ∧
    ((runDriver (fun _ _ n => (n + 1, none)) true
      ([(pystr "intro\n", .comment), (pystr "x\n", .code)] ++
        (pystr "has Setup here\n", .comment) :: [(pystr "y\n", .code)])
      (mkHandler (some (.inr (pystr "setup")))) (0 : Nat)
      [pystr "", pystr ""]).steps.getD 2 defaultStep).prompted ≠ none :=
  ⟨(c3_fast_forward_substring Nat (fun _ _ n => (n + 1, none)) (pystr "setup")
      [(pystr "intro\n", .comment), (pystr "x\n", .code)] (pystr "has Setup here\n")
      [(pystr "y\n", .code)] 0 [pystr "", pystr ""]
      (by decide) (by decide) (by decide) (by decide) (by decide) (by decide)).1,
   (c3_fast_forward_substring Nat (fun _ _ n => (n + 1, none)) (pystr "setup")
      [(pystr "intro\n", .comment), (pystr "x\n", .code)] (pystr "has Setup here\n")
      [(pystr "y\n", .code)] 0 [pystr "", pystr ""]
      (by decide) (by decide) (by decide) (by decide) (by decide) (by decide)).2.2.1.2⟩
